import Mathlib

/-!
Verification of the krakefaction rarefaction tool
(src/krakefaction/Krakefaction.py) against its specification.

The Python source is shallowly embedded below: the two input files become
lists of lines, the shared `random.random()` source becomes an explicit
sequence of draws `ℕ → ℚ`, Python dicts become insertion-ordered
association lists, and fatal Python exceptions (RuntimeError, IndexError)
become `Except` errors.
-/

set_option maxHeartbeats 1000000

namespace Krakefaction

/-- Classification marker: a line of the untranslated file is classified
when its first character is "C". -/
def CLASSIFIED : String := "C"

/-- Default sampling rate (0.05). -/
def DEFAULT_RATE : ℚ := 1/20

/-- Principal classification ranking label for domains. -/
def DOMAIN : String := "d"

/-- Principal classification ranking label for phyla. -/
def PHYLUM : String := "p"

/-- Principal classification ranking label for classes. -/
def CLASS : String := "c"

/-- Principal classification ranking label for orders. -/
def ORDER : String := "o"

/-- Principal classification ranking label for families. -/
def FAMILY : String := "f"

/-- Principal classification ranking label for genera. -/
def GENERA : String := "g"

/-- Principal classification ranking label for species. -/
def SPECIES : String := "s"

/-- Principal classification ranking label for subspecies. -/
def SUBSPECIES : String := "s1"

/-- Separator between a rank label and the taxon name in Kraken tokens. -/
def KRAKEN_SEPARATOR : String := "__"

/-- A Python dict from taxon token to occurrence count, modelled as an
insertion-ordered association list (reachable states have distinct keys). -/
abbrev Dict := List (String × Nat)

/-- Helper for `strStartsWith`: does the first list lead the second? -/
def leadsWith : List Char → List Char → Bool
  | [], _ => true
  | _ :: _, [] => false
  | p :: ps, c :: cs => p == c && leadsWith ps cs

/-- Python str.startswith(pat), on the character lists of the strings. -/
def strStartsWith (s pat : String) : Bool :=
  leadsWith pat.data s.data

/-- Helper for `pySplit`; `acc` holds the current token reversed. -/
def pySplitAux : List Char → List Char → List String
  | [], acc => if acc.isEmpty then [] else [String.mk acc.reverse]
  | c :: cs, acc =>
    if c.isWhitespace then
      (if acc.isEmpty then [] else [String.mk acc.reverse]) ++ pySplitAux cs []
    else
      pySplitAux cs (c :: acc)

/-- Python str.split() with no separator: split on whitespace runs and drop
empty tokens.  This also absorbs the preceding .strip(), which is a no-op
composed with split(). -/
def pySplit (s : String) : List String := pySplitAux s.data []

/-- Helper for `pipeSplit`; `acc` holds the current piece reversed. -/
def pipeSplitAux : List Char → List Char → List String
  | [], acc => [String.mk acc.reverse]
  | c :: cs, acc =>
    if c == '|' then String.mk acc.reverse :: pipeSplitAux cs []
    else pipeSplitAux cs (c :: acc)

/-- Python classification.split("|"). -/
def pipeSplit (s : String) : List String := pipeSplitAux s.data []

/-- The test untranslatedLine[0] == CLASSIFIED.  Lines read from a file are
never empty; the empty string is mapped to false. -/
def isClassifiedLine (line : String) : Bool :=
  match line.data with
  | [] => false
  | c :: _ => String.mk [c] == CLASSIFIED

/-- The Sample class: one sampling rate, a read counter and eight
taxon-token occurrence dictionaries, one per principal rank. -/
structure Sample where
  rate : ℚ
  numberOfReads : Nat
  domainDictionary : Dict
  phylumDictionary : Dict
  classDictionary : Dict
  orderDictionary : Dict
  familyDictionary : Dict
  generaDictionary : Dict
  speciesDictionary : Dict
  subspeciesDictionary : Dict
  deriving DecidableEq

/-- Sample.__init__ : the rate is stored, the read counter starts at zero
and the eight dictionaries start empty. -/
def Sample.init (rate : ℚ) : Sample where
  rate := rate
  numberOfReads := 0
  domainDictionary := []
  phylumDictionary := []
  classDictionary := []
  orderDictionary := []
  familyDictionary := []
  generaDictionary := []
  speciesDictionary := []
  subspeciesDictionary := []

/-- Loop body of Sample.updateDictionary for one token `rank` of the
rankings list: when the token carries the right rank label, a new token is
inserted with count 1 and a seen token has its count incremented. -/
def updateRank (label : String) (dictionary : Dict) (rank : String) : Dict :=
  if strStartsWith rank (label ++ KRAKEN_SEPARATOR) then
    if dictionary.any (fun q => q.1 == rank) then
      dictionary.map (fun q => if q.1 == rank then (q.1, q.2 + 1) else q)
    else
      dictionary ++ [(rank, 1)]
  else
    dictionary

/-- Sample.updateDictionary: fold `updateRank` over the rankings list. -/
def updateDictionary (dictionary : Dict) (rankings : List String) (label : String) : Dict :=
  rankings.foldl (updateRank label) dictionary

/-- Sample.updateDictionaries: update all eight rank dictionaries with the
rankings of one classified read. -/
def Sample.updateDictionaries (s : Sample) (rankings : List String) : Sample :=
  { s with
    domainDictionary := updateDictionary s.domainDictionary rankings DOMAIN
    phylumDictionary := updateDictionary s.phylumDictionary rankings PHYLUM
    classDictionary := updateDictionary s.classDictionary rankings CLASS
    orderDictionary := updateDictionary s.orderDictionary rankings ORDER
    familyDictionary := updateDictionary s.familyDictionary rankings FAMILY
    generaDictionary := updateDictionary s.generaDictionary rankings GENERA
    speciesDictionary := updateDictionary s.speciesDictionary rankings SPECIES
    subspeciesDictionary := updateDictionary s.subspeciesDictionary rankings SUBSPECIES }

/-- Body of the inner per-sample loop of generateRarefaction for one read:
when the shared draw `number` is at most the sample's rate the read counter
is incremented and, for a classified read, the dictionaries are updated. -/
def sampleStep (number : ℚ) (classified : Bool) (rankings : List String) (s : Sample) : Sample :=
  if number ≤ s.rate then
    let bumped : Sample := { s with numberOfReads := s.numberOfReads + 1 }
    if classified then bumped.updateDictionaries rankings else bumped
  else
    s

deriving instance DecidableEq for Except

/-- Error kinds of a run.  In Python these are uncaught RuntimeError or
IndexError exceptions; all are fatal. -/
inductive KError where
  | InputNotFound : String → KError
  | InvalidRate : ℚ → KError
  | StreamDesyncError : KError
  | IndexOutOfRange : KError
  deriving DecidableEq

/-- Main loop of generateRarefaction.  `untranslated` are the remaining
primary lines, `translated` the remaining secondary lines, `idx` the index
of the next random draw.  One draw is consumed per primary line; a
classified line additionally consumes one secondary line (readline returns
"" when the secondary stream is exhausted, and tokens[0] / tokens[1] then
raise IndexError, modelled as StreamDesyncError). -/
def generateRarefactionAux (draws : ℕ → ℚ) :
    List String → List String → ℕ → List Sample → Except KError (List Sample)
  | [], _, _, samples => .ok samples
  | line :: rest, translated, idx, samples =>
    let number := draws idx
    if isClassifiedLine line then
      match pySplit (translated.headD "") with
      | _read :: classification :: _ =>
        generateRarefactionAux draws rest translated.tail (idx + 1)
          (samples.map (sampleStep number true (pipeSplit classification)))
      | _ => .error KError.StreamDesyncError
    else
      generateRarefactionAux draws rest translated (idx + 1)
        (samples.map (sampleStep number false []))

/-- generateRarefaction: one pass over the primary stream, starting at the
first random draw. -/
def generateRarefaction (draws : ℕ → ℚ) (untranslated translated : List String)
    (samples : List Sample) : Except KError (List Sample) :=
  generateRarefactionAux draws untranslated translated 0 samples

/-- Rendering of a rate for the output file (exact formatting is an
external-collaborator concern). -/
def ratStr (q : ℚ) : String := toString q.num ++ "/" ++ toString q.den

/-- Rendering of a count for the output file. -/
def natStr (n : Nat) : String := toString n

/-- One CSV row of writeResults: the row name, every sample's cell but the
last followed by a comma, then samples[len(samples)-1]'s cell and a
newline. -/
def writeRow (name : String) (samples : List Sample) (cell : Sample → String) : String :=
  name ++ "," ++ String.join (samples.dropLast.map (fun s => cell s ++ ",")) ++
    (match samples.getLast? with
     | some s => cell s
     | none => "") ++ "\n"

/-- writeResults: the ten CSV rows written to the output file.  On an empty
sample list Python's samples[len(samples)-1] raises IndexError, modelled as
none. -/
def writeResults (samples : List Sample) : Option (List String) :=
  match samples.getLast? with
  | none => none
  | some _ => some
      [ writeRow "rates" samples (fun s => ratStr s.rate)
      , writeRow "reads" samples (fun s => natStr s.numberOfReads)
      , writeRow "domains" samples (fun s => natStr s.domainDictionary.length)
      , writeRow "phylums" samples (fun s => natStr s.phylumDictionary.length)
      , writeRow "classes" samples (fun s => natStr s.classDictionary.length)
      , writeRow "orders" samples (fun s => natStr s.orderDictionary.length)
      , writeRow "families" samples (fun s => natStr s.familyDictionary.length)
      , writeRow "genera" samples (fun s => natStr s.generaDictionary.length)
      , writeRow "species" samples (fun s => natStr s.speciesDictionary.length)
      , writeRow "subspecies" samples (fun s => natStr s.subspeciesDictionary.length) ]

/-- Python int(q): truncation of a rational toward zero. -/
def pyInt (q : ℚ) : ℤ := q.num.tdiv q.den

/-- Sample construction in run: samplingPoints = int(1 / float(rate)), then
samples = [Sample(i * rate) for i in range(1, samplingPoints + 1)]. -/
def buildSamples (rate : ℚ) : List Sample :=
  (List.range' 1 (pyInt ((1 : ℚ) / rate)).toNat).map (fun (i : ℕ) => Sample.init ((i : ℚ) * rate))

/-- run: input checks, rate defaulting and validation, sample construction,
the rarefaction pass and result writing.  The two Bool arguments model the
os.path.isfile checks; `rate = none` models passing no --rate argument.
Note the Python defaulting test is `if not rate`, and 0.0 is falsy. -/
def run (untranslatedExists translatedExists : Bool)
    (untranslated translated : List String) (draws : ℕ → ℚ) (rate : Option ℚ) :
    Except KError (List Sample × List String) :=
  if untranslatedExists = false then .error (.InputNotFound "untranslated")
  else if translatedExists = false then .error (.InputNotFound "translated")
  else
    let r : ℚ := match rate with
      | none => DEFAULT_RATE
      | some x => if x = 0 then DEFAULT_RATE else x
    if r ≤ 0 ∨ 1 < r then .error (.InvalidRate r)
    else
      match generateRarefaction draws untranslated translated (buildSamples r) with
      | .error e => .error e
      | .ok samples =>
        match writeResults samples with
        | none => .error .IndexOutOfRange
        | some rows => .ok (samples, rows)

/-- The eight principal ranks, used to quantify over the eight dictionaries
of a Sample. -/
inductive RankLabel where
  | domain | phylum | cls | ord | family | genera | species | subspecies
  deriving DecidableEq

/-- The Python label string of a rank. -/
def RankLabel.label : RankLabel → String
  | .domain => DOMAIN
  | .phylum => PHYLUM
  | .cls => CLASS
  | .ord => ORDER
  | .family => FAMILY
  | .genera => GENERA
  | .species => SPECIES
  | .subspecies => SUBSPECIES

/-- The dictionary of a Sample that belongs to a rank. -/
def Sample.dictOf (s : Sample) : RankLabel → Dict
  | .domain => s.domainDictionary
  | .phylum => s.phylumDictionary
  | .cls => s.classDictionary
  | .ord => s.orderDictionary
  | .family => s.familyDictionary
  | .genera => s.generaDictionary
  | .species => s.speciesDictionary
  | .subspecies => s.subspeciesDictionary

/-- Keys of a dictionary, in insertion order.  The number of keys is the
distinct count that writeResults reports (Python len of the dict). -/
def dictKeys (d : Dict) : List String := d.map Prod.fst

/-- The pure effect of the whole generateRarefaction pass on one sample:
the samples of the list evolve independently, one `sampleStep` per primary
line.  On a desynchronized input the pass stops early here, while
`generateRarefactionAux` reports the error. -/
def processedSample (draws : ℕ → ℚ) : List String → List String → ℕ → Sample → Sample
  | [], _, _, s => s
  | line :: rest, translated, idx, s =>
    if isClassifiedLine line then
      match pySplit (translated.headD "") with
      | _read :: classification :: _ =>
        processedSample draws rest translated.tail (idx + 1)
          (sampleStep (draws idx) true (pipeSplit classification) s)
      | _ => s
    else
      processedSample draws rest translated (idx + 1) (sampleStep (draws idx) false [] s)

/-- Does the pass over the two streams stay synchronized, every classified
primary line finding a well-formed secondary line? -/
def cleanPass : List String → List String → Bool
  | [], _ => true
  | line :: rest, translated =>
    if isClassifiedLine line then
      match pySplit (translated.headD "") with
      | _read :: _classification :: _ => cleanPass rest translated.tail
      | _ => false
    else
      cleanPass rest translated

/-- Modelled from the spec: the rank paths of the classified reads included
in the sample at rate `r` (shared draw at most `r`), in input order.  This
is the specification-side description of a sample's contents, used to state
distinct-count correctness against the code. -/
def includedRankings (draws : ℕ → ℚ) (r : ℚ) :
    List String → List String → ℕ → List (List String)
  | [], _, _ => []
  | line :: rest, translated, idx =>
    if isClassifiedLine line then
      match pySplit (translated.headD "") with
      | _read :: classification :: _ =>
        (if draws idx ≤ r then [pipeSplit classification] else []) ++
          includedRankings draws r rest translated.tail (idx + 1)
      | _ => []
    else
      includedRankings draws r rest translated (idx + 1)

/-! Helper lemmas. -/

theorem updateDictionaries_numberOfReads (s : Sample) (rankings : List String) :
    (s.updateDictionaries rankings).numberOfReads = s.numberOfReads := rfl

theorem sampleStep_rate (number : ℚ) (c : Bool) (rankings : List String) (s : Sample) :
    (sampleStep number c rankings s).rate = s.rate := by
  unfold sampleStep
  split
  · cases c <;> rfl
  · rfl

theorem sampleStep_numberOfReads (number : ℚ) (c : Bool) (rankings : List String) (s : Sample) :
    (sampleStep number c rankings s).numberOfReads =
      if number ≤ s.rate then s.numberOfReads + 1 else s.numberOfReads := by
  unfold sampleStep
  split
  · cases c <;> rfl
  · rfl

theorem bump_dictOf (s : Sample) (m : Nat) (ℓ : RankLabel) :
    ({ s with numberOfReads := m } : Sample).dictOf ℓ = s.dictOf ℓ := by
  cases ℓ <;> rfl

theorem updateDictionaries_dictOf (s : Sample) (rankings : List String) (ℓ : RankLabel) :
    (s.updateDictionaries rankings).dictOf ℓ =
      updateDictionary (s.dictOf ℓ) rankings ℓ.label := by
  cases ℓ <;> rfl

theorem sampleStep_dictOf (number : ℚ) (c : Bool) (rankings : List String) (s : Sample)
    (ℓ : RankLabel) :
    (sampleStep number c rankings s).dictOf ℓ =
      if number ≤ s.rate ∧ c = true then
        updateDictionary (s.dictOf ℓ) rankings ℓ.label
      else s.dictOf ℓ := by
  unfold sampleStep
  by_cases h : number ≤ s.rate
  · cases c
    · simp [h, bump_dictOf]
    · simp [h, updateDictionaries_dictOf, bump_dictOf]
  · simp [h]

theorem aux_cons_unclassified (draws : ℕ → ℚ) (line : String) (rest t : List String)
    (idx : ℕ) (ss : List Sample) (h : isClassifiedLine line = false) :
    generateRarefactionAux draws (line :: rest) t idx ss =
      generateRarefactionAux draws rest t (idx + 1)
        (ss.map (sampleStep (draws idx) false [])) := by
  simp [generateRarefactionAux, h]

theorem aux_cons_classified (draws : ℕ → ℚ) (line : String) (rest t : List String)
    (idx : ℕ) (ss : List Sample) (a b : String) (l : List String)
    (h : isClassifiedLine line = true) (hsplit : pySplit (t.headD "") = a :: b :: l) :
    generateRarefactionAux draws (line :: rest) t idx ss =
      generateRarefactionAux draws rest t.tail (idx + 1)
        (ss.map (sampleStep (draws idx) true (pipeSplit b))) := by
  simp only [generateRarefactionAux, h, hsplit, if_true]

theorem aux_cons_malformed (draws : ℕ → ℚ) (line : String) (rest t : List String)
    (idx : ℕ) (ss : List Sample)
    (h : isClassifiedLine line = true) (hsplit : (pySplit (t.headD "")).length < 2) :
    generateRarefactionAux draws (line :: rest) t idx ss =
      .error KError.StreamDesyncError := by
  rcases hp : pySplit (t.headD "") with _ | ⟨a, _ | ⟨b, l⟩⟩
  · simp only [generateRarefactionAux, h, hp, if_true]
  · simp only [generateRarefactionAux, h, hp, if_true]
  · rw [hp] at hsplit
    simp at hsplit
    omega

theorem drop_one_shift {α : Type} (t : List α) (k : ℕ) : t.drop (k + 1) = t.tail.drop k := by
  cases t <;> simp

/-- A synchronized pass succeeds and sends every sample through its pure
per-sample evolution. -/
theorem cleanPass_aux_ok (draws : ℕ → ℚ) (u : List String) :
    ∀ t idx ss, cleanPass u t = true →
      generateRarefactionAux draws u t idx ss =
        .ok (ss.map (processedSample draws u t idx)) := by
  induction u with
  | nil =>
    intro t idx ss _
    simp [generateRarefactionAux, processedSample]
  | cons line rest ih =>
    intro t idx ss hclean
    by_cases hc : isClassifiedLine line
    · rcases hp : pySplit (t.headD "") with _ | ⟨a, _ | ⟨b, l⟩⟩
      · rw [cleanPass] at hclean
        simp only [hc, hp, if_true, Bool.false_eq_true] at hclean
      · rw [cleanPass] at hclean
        simp only [hc, hp, if_true, Bool.false_eq_true] at hclean
      · rw [cleanPass] at hclean
        simp only [hc, hp, if_true] at hclean
        rw [aux_cons_classified draws line rest t idx ss a b l hc hp, ih _ _ _ hclean]
        simp only [processedSample, hc, hp, if_true, List.map_map]
        rfl
    · rw [Bool.not_eq_true] at hc
      rw [cleanPass] at hclean
      simp only [hc, Bool.false_eq_true, if_false] at hclean
      rw [aux_cons_unclassified draws line rest t idx ss hc, ih _ _ _ hclean]
      simp only [processedSample, hc, Bool.false_eq_true, if_false, List.map_map]
      rfl

/-- A successful pass implies the two streams stayed synchronized. -/
theorem aux_ok_cleanPass (draws : ℕ → ℚ) (u : List String) :
    ∀ t idx ss res, generateRarefactionAux draws u t idx ss = .ok res →
      cleanPass u t = true := by
  induction u with
  | nil => intro t idx ss res _; rfl
  | cons line rest ih =>
    intro t idx ss res hok
    by_cases hc : isClassifiedLine line
    · rcases hp : pySplit (t.headD "") with _ | ⟨a, _ | ⟨b, l⟩⟩
      · rw [aux_cons_malformed draws line rest t idx ss hc (by rw [hp]; simp)] at hok
        cases hok
      · rw [aux_cons_malformed draws line rest t idx ss hc (by rw [hp]; simp)] at hok
        cases hok
      · rw [aux_cons_classified draws line rest t idx ss a b l hc hp] at hok
        rw [cleanPass]
        simp only [hc, hp, if_true]
        exact ih _ _ _ _ hok
    · rw [Bool.not_eq_true] at hc
      rw [aux_cons_unclassified draws line rest t idx ss hc] at hok
      rw [cleanPass]
      simp only [hc, Bool.false_eq_true, if_false]
      exact ih _ _ _ _ hok

/-- A desynchronized pass fails with StreamDesyncError. -/
theorem cleanPass_false_aux_error (draws : ℕ → ℚ) (u : List String) :
    ∀ t idx ss, cleanPass u t = false →
      generateRarefactionAux draws u t idx ss = .error KError.StreamDesyncError := by
  induction u with
  | nil => intro t idx ss hclean; cases hclean
  | cons line rest ih =>
    intro t idx ss hclean
    by_cases hc : isClassifiedLine line
    · rcases hp : pySplit (t.headD "") with _ | ⟨a, _ | ⟨b, l⟩⟩
      · exact aux_cons_malformed draws line rest t idx ss hc (by rw [hp]; simp)
      · exact aux_cons_malformed draws line rest t idx ss hc (by rw [hp]; simp)
      · rw [cleanPass] at hclean
        simp only [hc, hp, if_true] at hclean
        rw [aux_cons_classified draws line rest t idx ss a b l hc hp]
        exact ih _ _ _ hclean
    · rw [Bool.not_eq_true] at hc
      rw [cleanPass] at hclean
      simp only [hc, Bool.false_eq_true, if_false] at hclean
      rw [aux_cons_unclassified draws line rest t idx ss hc]
      exact ih _ _ _ hclean

/-- A secondary stream shorter than the number of classified primary lines
cannot stay synchronized. -/
theorem too_short_not_clean :
    ∀ (u t : List String), t.length < u.countP (fun l => isClassifiedLine l) →
      cleanPass u t = false := by
  intro u
  induction u with
  | nil => intro t h; rw [List.countP_nil] at h; omega
  | cons line rest ih =>
    intro t h
    by_cases hc : isClassifiedLine line
    · rcases t with _ | ⟨t0, ttl⟩
      · rw [cleanPass]
        simp only [hc, if_true]
        have hp : pySplit (([] : List String).headD "") = [] := rfl
        rw [hp]
      · rcases hp : pySplit ((t0 :: ttl).headD "") with _ | ⟨a, _ | ⟨b, l⟩⟩
        · rw [cleanPass]; simp only [hc, hp, if_true]
        · rw [cleanPass]; simp only [hc, hp, if_true]
        · rw [cleanPass]
          simp only [hc, hp, if_true]
          apply ih
          rw [List.countP_cons] at h
          simp only [hc, if_true, List.length_cons, List.tail_cons] at h ⊢
          omega
    · rw [Bool.not_eq_true] at hc
      rw [cleanPass]
      simp only [hc, Bool.false_eq_true, if_false]
      apply ih
      rw [List.countP_cons] at h
      simp only [hc, Bool.false_eq_true, if_false, Nat.add_zero] at h
      exact h

/-- The pure pass never changes a sample's rate. -/
theorem processedSample_rate (draws : ℕ → ℚ) (u : List String) :
    ∀ t idx s, (processedSample draws u t idx s).rate = s.rate := by
  induction u with
  | nil => intro t idx s; rfl
  | cons line rest ih =>
    intro t idx s
    by_cases hc : isClassifiedLine line
    · rcases hp : pySplit (t.headD "") with _ | ⟨a, _ | ⟨b, l⟩⟩
      · simp only [processedSample, hc, hp, if_true]
      · simp only [processedSample, hc, hp, if_true]
      · simp only [processedSample, hc, hp, if_true]
        rw [ih, sampleStep_rate]
    · rw [Bool.not_eq_true] at hc
      simp only [processedSample, hc, Bool.false_eq_true, if_false]
      rw [ih, sampleStep_rate]

/-- On a synchronized pass, a sample whose rate dominates every draw counts
every primary line. -/
theorem processedSample_count (draws : ℕ → ℚ) (u : List String) :
    ∀ t idx s, cleanPass u t = true → (∀ i, draws i ≤ s.rate) →
      (processedSample draws u t idx s).numberOfReads = s.numberOfReads + u.length := by
  induction u with
  | nil => intro t idx s _ _; rfl
  | cons line rest ih =>
    intro t idx s hclean hd
    by_cases hc : isClassifiedLine line
    · rcases hp : pySplit (t.headD "") with _ | ⟨a, _ | ⟨b, l⟩⟩
      · rw [cleanPass] at hclean; simp only [hc, hp, if_true, Bool.false_eq_true] at hclean
      · rw [cleanPass] at hclean; simp only [hc, hp, if_true, Bool.false_eq_true] at hclean
      · rw [cleanPass] at hclean
        simp only [hc, hp, if_true] at hclean
        simp only [processedSample, hc, hp, if_true]
        rw [ih _ _ _ hclean (by rw [sampleStep_rate]; exact hd)]
        rw [sampleStep_numberOfReads, if_pos (hd idx)]
        simp only [List.length_cons]
        omega
    · rw [Bool.not_eq_true] at hc
      rw [cleanPass] at hclean
      simp only [hc, Bool.false_eq_true, if_false] at hclean
      simp only [processedSample, hc, Bool.false_eq_true, if_false]
      rw [ih _ _ _ hclean (by rw [sampleStep_rate]; exact hd)]
      rw [sampleStep_numberOfReads, if_pos (hd idx)]
      simp only [List.length_cons]
      omega

/-- On a synchronized pass, each rank dictionary of a sample is exactly the
fold of updateDictionary over the rank paths of the included classified
reads. -/
theorem processedSample_dictOf (draws : ℕ → ℚ) (u : List String) :
    ∀ t idx s, cleanPass u t = true → ∀ ℓ : RankLabel,
      (processedSample draws u t idx s).dictOf ℓ =
        (includedRankings draws s.rate u t idx).foldl
          (fun d rs => updateDictionary d rs ℓ.label) (s.dictOf ℓ) := by
  induction u with
  | nil => intro t idx s _ ℓ; rfl
  | cons line rest ih =>
    intro t idx s hclean ℓ
    by_cases hc : isClassifiedLine line
    · rcases hp : pySplit (t.headD "") with _ | ⟨a, _ | ⟨b, l⟩⟩
      · rw [cleanPass] at hclean; simp only [hc, hp, if_true, Bool.false_eq_true] at hclean
      · rw [cleanPass] at hclean; simp only [hc, hp, if_true, Bool.false_eq_true] at hclean
      · rw [cleanPass] at hclean
        simp only [hc, hp, if_true] at hclean
        simp only [processedSample, includedRankings, hc, hp, if_true]
        rw [ih _ _ _ hclean ℓ, sampleStep_rate]
        by_cases hin : draws idx ≤ s.rate
        · rw [if_pos hin, sampleStep_dictOf, if_pos ⟨hin, rfl⟩]
          simp
        · rw [if_neg hin, sampleStep_dictOf, if_neg (by simp [hin])]
          simp
    · rw [Bool.not_eq_true] at hc
      rw [cleanPass] at hclean
      simp only [hc, Bool.false_eq_true, if_false] at hclean
      simp only [processedSample, includedRankings, hc, Bool.false_eq_true, if_false]
      rw [ih _ _ _ hclean ℓ, sampleStep_rate, sampleStep_dictOf, if_neg (by simp)]

theorem any_beq_iff (d : Dict) (rank : String) :
    (d.any (fun q => q.1 == rank) = true) ↔ rank ∈ dictKeys d := by
  simp [dictKeys, List.any_eq_true]

/-- Inserting one token touches the key list only when the token carries
the right label and is unseen, in which case the key is appended. -/
theorem updateRank_keys (label : String) (d : Dict) (r : String) :
    dictKeys (updateRank label d r) =
      if strStartsWith r (label ++ KRAKEN_SEPARATOR) = true ∧ r ∉ dictKeys d then
        dictKeys d ++ [r]
      else dictKeys d := by
  unfold updateRank
  by_cases hs : strStartsWith r (label ++ KRAKEN_SEPARATOR) = true
  · by_cases hm : d.any (fun q => q.1 == r) = true
    · have hmem : r ∈ dictKeys d := (any_beq_iff d r).1 hm
      rw [if_pos hs, if_pos hm, if_neg (by simp [hmem])]
      simp only [dictKeys, List.map_map]
      apply List.map_congr_left
      intro q _
      by_cases h : (q.1 == r) = true <;> simp [Function.comp, h]
    · have hmem : r ∉ dictKeys d := fun hh => hm ((any_beq_iff d r).2 hh)
      rw [if_pos hs, if_neg hm, if_pos ⟨hs, hmem⟩]
      simp [dictKeys]
  · rw [if_neg hs, if_neg (by simp [hs])]

/-- Updating one rank dictionary with a rankings list: the key list stays
duplicate-free, and afterwards holds exactly the old keys and the tokens of
the rankings list that carry the label. -/
theorem updateDictionary_keys (rs : List String) (label : String) :
    ∀ d : Dict, (dictKeys d).Nodup →
      (dictKeys (updateDictionary d rs label)).Nodup ∧
      ∀ x, x ∈ dictKeys (updateDictionary d rs label) ↔
        x ∈ dictKeys d ∨
          x ∈ rs.filter (fun r => strStartsWith r (label ++ KRAKEN_SEPARATOR)) := by
  induction rs with
  | nil => intro d hd; exact ⟨hd, by simp [updateDictionary]⟩
  | cons r rs ih =>
    intro d hd
    have hstep : updateDictionary d (r :: rs) label =
        updateDictionary (updateRank label d r) rs label := rfl
    rw [hstep]
    have hkeys := updateRank_keys label d r
    by_cases hcond : strStartsWith r (label ++ KRAKEN_SEPARATOR) = true ∧ r ∉ dictKeys d
    · rw [if_pos hcond] at hkeys
      have hnodup2 : (dictKeys (updateRank label d r)).Nodup := by
        rw [hkeys]
        simp [List.nodup_append, hd, hcond.2]
      obtain ⟨n2, m2⟩ := ih (updateRank label d r) hnodup2
      refine ⟨n2, fun x => ?_⟩
      rw [m2 x, hkeys]
      simp only [List.mem_append, List.mem_singleton, List.filter_cons, hcond.1, if_true,
        List.mem_cons]
      tauto
    · rw [if_neg hcond] at hkeys
      obtain ⟨n2, m2⟩ := ih (updateRank label d r) (by rw [hkeys]; exact hd)
      refine ⟨n2, fun x => ?_⟩
      rw [m2 x, hkeys]
      by_cases hp2 : strStartsWith r (label ++ KRAKEN_SEPARATOR) = true
      · have hrin : r ∈ dictKeys d := by
          by_contra hno
          exact hcond ⟨hp2, hno⟩
        simp only [List.filter_cons, hp2, if_true, List.mem_cons]
        constructor
        · rintro (h | h)
          · exact Or.inl h
          · exact Or.inr (Or.inr h)
        · rintro (h | h | h)
          · exact Or.inl h
          · exact Or.inl (h ▸ hrin)
          · exact Or.inr h
      · rw [Bool.not_eq_true] at hp2
        simp [List.filter_cons, hp2]

/-- Folding whole reads into one rank dictionary: the keys are exactly the
label-matching tokens occurring anywhere in the folded rankings lists. -/
theorem foldl_updateDictionary_keys (rss : List (List String)) (label : String) :
    ∀ d : Dict, (dictKeys d).Nodup →
      (dictKeys (rss.foldl (fun d rs => updateDictionary d rs label) d)).Nodup ∧
      ∀ x, x ∈ dictKeys (rss.foldl (fun d rs => updateDictionary d rs label) d) ↔
        x ∈ dictKeys d ∨
          x ∈ rss.flatten.filter (fun r => strStartsWith r (label ++ KRAKEN_SEPARATOR)) := by
  induction rss with
  | nil => intro d hd; exact ⟨hd, by simp⟩
  | cons rs rss ih =>
    intro d hd
    obtain ⟨n1, m1⟩ := updateDictionary_keys rs label d hd
    obtain ⟨n2, m2⟩ := ih (updateDictionary d rs label) n1
    refine ⟨n2, fun x => ?_⟩
    rw [List.foldl_cons, m2 x, m1 x]
    simp only [List.flatten_cons, List.filter_append, List.mem_append]
    tauto

/-- The number of entries of a rank dictionary built from empty equals the
number of distinct label-matching tokens among the folded rankings. -/
theorem dict_length_distinct (rss : List (List String)) (label : String) :
    (rss.foldl (fun d rs => updateDictionary d rs label) ([] : Dict)).length =
      ((rss.flatten.filter
        (fun r => strStartsWith r (label ++ KRAKEN_SEPARATOR))).toFinset).card := by
  obtain ⟨hn, hm⟩ := foldl_updateDictionary_keys rss label [] (by simp [dictKeys])
  have hlen : (rss.foldl (fun d rs => updateDictionary d rs label) ([] : Dict)).length =
      (dictKeys (rss.foldl (fun d rs => updateDictionary d rs label) ([] : Dict))).length := by
    simp [dictKeys]
  rw [hlen, ← List.toFinset_card_of_nodup hn]
  congr 1
  ext x
  simp only [List.mem_toFinset]
  rw [hm x]
  simp [dictKeys]

/-- A successful pass leaves the rates of the sample list unchanged. -/
theorem aux_ok_rates (draws : ℕ → ℚ) (u t : List String) (idx : ℕ)
    (ss res : List Sample) (hok : generateRarefactionAux draws u t idx ss = .ok res) :
    res.map Sample.rate = ss.map Sample.rate := by
  have hclean := aux_ok_cleanPass draws u t idx ss res hok
  rw [cleanPass_aux_ok draws u t idx ss hclean] at hok
  cases hok
  rw [List.map_map]
  exact List.map_congr_left fun s _ => processedSample_rate draws u t idx s

/-- A successful pass preserves the length of the sample list. -/
theorem aux_ok_length (draws : ℕ → ℚ) (u t : List String) (idx : ℕ)
    (ss res : List Sample) (hok : generateRarefactionAux draws u t idx ss = .ok res) :
    res.length = ss.length := by
  have h := aux_ok_rates draws u t idx ss res hok
  have h1 : (res.map Sample.rate).length = (ss.map Sample.rate).length := by rw [h]
  simpa using h1

/-- A successful pass sends the sample at each position through its pure
per-sample evolution. -/
theorem aux_ok_getElem (draws : ℕ → ℚ) (u t : List String) (idx : ℕ)
    (ss res : List Sample) (hok : generateRarefactionAux draws u t idx ss = .ok res)
    (j : ℕ) : res[j]? = ss[j]?.map (processedSample draws u t idx) := by
  have hclean := aux_ok_cleanPass draws u t idx ss res hok
  rw [cleanPass_aux_ok draws u t idx ss hclean] at hok
  cases hok
  exact List.getElem?_map _ _ _

/-- Processing a prefix of the primary stream advances the secondary stream
by exactly the number of classified lines in that prefix, and the draw index
by the prefix length.  Holds whether or not the prefix desynchronizes (an
error propagates through bind). -/
theorem aux_append (draws : ℕ → ℚ) (u1 : List String) :
    ∀ u2 t idx ss,
      generateRarefactionAux draws (u1 ++ u2) t idx ss =
        (generateRarefactionAux draws u1 t idx ss).bind
          (fun ss2 => generateRarefactionAux draws u2
            (t.drop (u1.countP (fun l => isClassifiedLine l))) (idx + u1.length) ss2) := by
  induction u1 with
  | nil =>
    intro u2 t idx ss
    simp [generateRarefactionAux, Except.bind]
  | cons line rest ih =>
    intro u2 t idx ss
    have hcnt : (line :: rest).countP (fun l => isClassifiedLine l) =
        rest.countP (fun l => isClassifiedLine l) +
          (if isClassifiedLine line then 1 else 0) := by
      rw [List.countP_cons]
    have hlen : idx + (line :: rest).length = (idx + 1) + rest.length := by
      simp only [List.length_cons]
      omega
    by_cases hc : isClassifiedLine line
    · rcases hp : pySplit (t.headD "") with _ | ⟨a, _ | ⟨b, l⟩⟩
      · rw [List.cons_append,
          aux_cons_malformed draws line (rest ++ u2) t idx ss hc (by rw [hp]; simp),
          aux_cons_malformed draws line rest t idx ss hc (by rw [hp]; simp)]
        rfl
      · rw [List.cons_append,
          aux_cons_malformed draws line (rest ++ u2) t idx ss hc (by rw [hp]; simp),
          aux_cons_malformed draws line rest t idx ss hc (by rw [hp]; simp)]
        rfl
      · rw [List.cons_append,
          aux_cons_classified draws line (rest ++ u2) t idx ss a b l hc hp,
          aux_cons_classified draws line rest t idx ss a b l hc hp,
          ih u2 t.tail (idx + 1) _, hcnt, hlen]
        simp only [hc, if_true]
        rw [drop_one_shift t]
    · rw [Bool.not_eq_true] at hc
      rw [List.cons_append,
        aux_cons_unclassified draws line (rest ++ u2) t idx ss hc,
        aux_cons_unclassified draws line rest t idx ss hc,
        ih u2 t (idx + 1) _, hcnt, hlen]
      simp only [hc, Bool.false_eq_true, if_false, Nat.add_zero]

/-- The pass only consults the draws at the indices of the processed lines:
draw sequences that agree there produce identical results. -/
theorem aux_draws_congr (draws1 draws2 : ℕ → ℚ) (u : List String) :
    ∀ t idx ss, (∀ k, k < u.length → draws1 (idx + k) = draws2 (idx + k)) →
      generateRarefactionAux draws1 u t idx ss =
        generateRarefactionAux draws2 u t idx ss := by
  induction u with
  | nil => intro t idx ss _; rfl
  | cons line rest ih =>
    intro t idx ss hag
    have h0 : draws1 idx = draws2 idx := by
      have h := hag 0 (by simp)
      simpa using h
    have hshift : ∀ k, k < rest.length →
        draws1 ((idx + 1) + k) = draws2 ((idx + 1) + k) := by
      intro k hk
      have h := hag (k + 1) (by simp only [List.length_cons]; omega)
      rw [show idx + (k + 1) = (idx + 1) + k from by omega] at h
      exact h
    by_cases hc : isClassifiedLine line
    · rcases hp : pySplit (t.headD "") with _ | ⟨a, _ | ⟨b, l⟩⟩
      · rw [aux_cons_malformed draws1 line rest t idx ss hc (by rw [hp]; simp),
          aux_cons_malformed draws2 line rest t idx ss hc (by rw [hp]; simp)]
      · rw [aux_cons_malformed draws1 line rest t idx ss hc (by rw [hp]; simp),
          aux_cons_malformed draws2 line rest t idx ss hc (by rw [hp]; simp)]
      · rw [aux_cons_classified draws1 line rest t idx ss a b l hc hp,
          aux_cons_classified draws2 line rest t idx ss a b l hc hp, h0]
        exact ih _ _ _ hshift
    · rw [Bool.not_eq_true] at hc
      rw [aux_cons_unclassified draws1 line rest t idx ss hc,
        aux_cons_unclassified draws2 line rest t idx ss hc, h0]
      exact ih _ _ _ hshift

theorem Sample.init_rate (x : ℚ) : (Sample.init x).rate = x := rfl

theorem Sample.init_numberOfReads (x : ℚ) : (Sample.init x).numberOfReads = 0 := rfl

theorem Sample.init_dictOf (x : ℚ) (ℓ : RankLabel) : (Sample.init x).dictOf ℓ = [] := by
  cases ℓ <;> rfl

/-- Python int() truncation agrees with the floor on nonnegative rationals. -/
theorem pyInt_eq_floor (q : ℚ) (h : 0 ≤ q) : pyInt q = ⌊q⌋ := by
  rw [Rat.floor_def]
  exact Int.tdiv_eq_ediv (Rat.num_nonneg.mpr h) (by positivity)

theorem buildSamples_length (rate : ℚ) :
    (buildSamples rate).length = (pyInt ((1 : ℚ) / rate)).toNat := by
  simp [buildSamples]

theorem buildSamples_rates (rate : ℚ) :
    (buildSamples rate).map Sample.rate =
      (List.range' 1 (pyInt ((1 : ℚ) / rate)).toNat).map (fun (i : ℕ) => (i : ℚ) * rate) := by
  rw [buildSamples, List.map_map]
  exact List.map_congr_left fun i _ => rfl

/-- For a valid rate there is at least one sampling point. -/
theorem samplingPoints_pos (rate : ℚ) (h0 : 0 < rate) (h1 : rate ≤ 1) :
    0 < (pyInt ((1 : ℚ) / rate)).toNat := by
  rw [pyInt_eq_floor _ (by positivity)]
  have hfl : 1 ≤ ⌊(1 : ℚ) / rate⌋ := by
    rw [Int.le_floor]
    push_cast
    rw [le_div_iff₀ h0, one_mul]
    exact h1
  omega

/-- Multiples of a positive rate listed over a range are strictly
increasing. -/
theorem chain_lt_range'_map (rate : ℚ) (h0 : 0 < rate) :
    ∀ (n s : ℕ), ((List.range' s n).map (fun (i : ℕ) => (i : ℚ) * rate)).Chain' (· < ·) := by
  intro n
  induction n with
  | zero => intro s; simp
  | succ m ih =>
    intro s
    cases m with
    | zero => simp
    | succ m2 =>
      rw [List.range'_succ, List.range'_succ, List.map_cons, List.map_cons,
        List.chain'_cons]
      constructor
      · have hlt : (s : ℚ) < ((s + 1 : ℕ) : ℚ) := by
          push_cast
          linarith
        exact mul_lt_mul_of_pos_right hlt h0
      · have h2 := ih (s + 1)
        rw [List.range'_succ, List.map_cons] at h2
        exact h2

theorem range'_getLast? (n : ℕ) (hn : 0 < n) :
    ∀ s, (List.range' s n).getLast? = some (s + n - 1) := by
  cases n with
  | zero => omega
  | succ m =>
    intro s
    rw [List.range'_concat, List.getLast?_concat]
    congr 1
    omega

theorem floor_inv_ge_one (rate : ℚ) (h0 : 0 < rate) (h1 : rate ≤ 1) :
    1 ≤ ⌊(1 : ℚ) / rate⌋ := by
  rw [Int.le_floor]
  push_cast
  rw [le_div_iff₀ h0, one_mul]
  exact h1

/-! Claim theorems. -/

/-- C1: nesting monotonicity.  In generateRarefaction each read is compared
against every sample's rate with one shared draw `number`; if the per-sample
loop body counts the read into the sample at the lower rate (its read
counter is incremented), it also counts it into every sample at a higher
rate. -/
theorem claim1_nesting_monotonicity (number : ℚ) (classified : Bool)
    (rankings : List String) (s1 s2 : Sample) (h12 : s1.rate < s2.rate)
    (h1 : (sampleStep number classified rankings s1).numberOfReads =
      s1.numberOfReads + 1) :
    (sampleStep number classified rankings s2).numberOfReads =
      s2.numberOfReads + 1 := by
  have hin : number ≤ s1.rate := by
    by_contra hno
    rw [sampleStep_numberOfReads, if_neg hno] at h1
    omega
  rw [sampleStep_numberOfReads, if_pos (le_of_lt (lt_of_le_of_lt hin h12))]

theorem claim1_witness :
    (Sample.init (1/2)).rate < (Sample.init 1).rate ∧
    (sampleStep (1/4) false [] (Sample.init (1/2))).numberOfReads =
      (Sample.init (1/2)).numberOfReads + 1 ∧
    (sampleStep (1/4) false [] (Sample.init 1)).numberOfReads =
      (Sample.init 1).numberOfReads + 1 :=
  ⟨by with_unfolding_all decide, by with_unfolding_all decide,
   claim1_nesting_monotonicity (1/4) false [] (Sample.init (1/2)) (Sample.init 1)
     (by with_unfolding_all decide) (by with_unfolding_all decide)⟩

/-- C2 (code evidence): run called with the out-of-range rate 0.0 does not
raise InvalidRate and does not stop: Python's falsy defaulting test
`if not rate` treats 0.0 like an absent argument, replaces it by the
default rate, and the run proceeds. -/
theorem claim2_rate_zero_proceeds :
    (run true true [] [] (fun _ => 0) (some 0)).isOk = true ∧
    run true true [] [] (fun _ => 0) (some 0) =
      run true true [] [] (fun _ => 0) (some DEFAULT_RATE) ∧
    ∀ e : KError, run true true [] [] (fun _ => 0) (some 0) ≠ .error e := by
  have h : (run true true [] [] (fun _ => 0) (some 0)).isOk = true := by
    with_unfolding_all rfl
  refine ⟨h, by with_unfolding_all rfl, fun e he => ?_⟩
  rw [he] at h
  simp [Except.isOk, Except.toBool] at h

/-- C3 (counterexample): at the valid configured rate 0.3 the sample set
has rates [0.3, 0.6, 0.9]; the last rate is 0.9, not 1.0, so the sequence
does not go "up to and including 1.0" as the claim states. -/
theorem claim3_counterexample :
    (0 : ℚ) < 3/10 ∧ (3/10 : ℚ) ≤ 1 ∧
    (buildSamples (3/10)).map Sample.rate = [3/10, 3/5, 9/10] ∧
    (buildSamples (3/10)).getLast?.map Sample.rate = some (9/10) ∧
    (9/10 : ℚ) ≠ 1 :=
  ⟨by norm_num, by norm_num, by with_unfolding_all decide,
   by with_unfolding_all decide, by norm_num⟩

/-- C3 (amended): for every valid rate in (0,1], run constructs the sample
set before any read is processed as floor(1/rate) Samples with strictly
increasing rates rate, 2*rate, ..., floor(1/rate)*rate; every rate is at
most 1.0, the last equals floor(1/rate)*rate and reaches 1.0 exactly when
1/rate is an integer, and a successful pass never changes the list's
length or rates. -/
theorem claim3_sample_set (rate : ℚ) (h0 : 0 < rate) (h1 : rate ≤ 1) :
    (buildSamples rate).length = (⌊(1 : ℚ) / rate⌋).toNat ∧
    (buildSamples rate).map Sample.rate =
      (List.range' 1 (⌊(1 : ℚ) / rate⌋).toNat).map (fun (i : ℕ) => (i : ℚ) * rate) ∧
    ((buildSamples rate).map Sample.rate).Chain' (· < ·) ∧
    (∀ s ∈ buildSamples rate, s.rate ≤ 1) ∧
    (buildSamples rate).getLast?.map Sample.rate =
      some (((⌊(1 : ℚ) / rate⌋).toNat : ℚ) * rate) ∧
    ((((⌊(1 : ℚ) / rate⌋).toNat : ℚ) * rate = 1) ↔ ((1 : ℚ) / rate = ⌊(1 : ℚ) / rate⌋)) ∧
    (∀ draws u t res, generateRarefaction draws u t (buildSamples rate) = .ok res →
      res.map Sample.rate = (buildSamples rate).map Sample.rate) := by
  have hpy : pyInt ((1 : ℚ) / rate) = ⌊(1 : ℚ) / rate⌋ :=
    pyInt_eq_floor _ (by positivity)
  have hge1 : 1 ≤ ⌊(1 : ℚ) / rate⌋ := floor_inv_ge_one rate h0 h1
  have hcast : (((⌊(1 : ℚ) / rate⌋).toNat : ℕ) : ℚ) = ((⌊(1 : ℚ) / rate⌋ : ℤ) : ℚ) := by
    exact_mod_cast Int.toNat_of_nonneg (by omega)
  refine ⟨?_, ?_, ?_, ?_, ?_, ?_, ?_⟩
  · rw [buildSamples_length, hpy]
  · rw [buildSamples_rates, hpy]
  · rw [buildSamples_rates]
    exact chain_lt_range'_map rate h0 _ 1
  · intro s hs
    rw [buildSamples] at hs
    simp only [List.mem_map] at hs
    obtain ⟨i, hi, rfl⟩ := hs
    rw [Sample.init_rate]
    rw [List.mem_range'_1, hpy] at hi
    have hile : i ≤ (⌊(1 : ℚ) / rate⌋).toNat := by omega
    have hiq : (i : ℚ) ≤ ((⌊(1 : ℚ) / rate⌋ : ℤ) : ℚ) := by
      rw [← hcast]
      exact_mod_cast hile
    have h2 : (i : ℚ) ≤ (1 : ℚ) / rate := le_trans hiq (Int.floor_le _)
    have h3 := mul_le_mul_of_nonneg_right h2 h0.le
    rwa [one_div, inv_mul_cancel₀ h0.ne'] at h3
  · have hn : 0 < (⌊(1 : ℚ) / rate⌋).toNat := by omega
    rw [buildSamples, hpy, List.getLast?_map, range'_getLast? _ hn 1]
    simp only [Option.map_some', Sample.init_rate]
    rw [show 1 + (⌊(1 : ℚ) / rate⌋).toNat - 1 = (⌊(1 : ℚ) / rate⌋).toNat from by omega]
  · rw [hcast, ← eq_div_iff h0.ne']
    exact eq_comm
  · intro draws u t res hok
    exact aux_ok_rates draws u t 0 _ res hok

theorem claim3_witness :
    (0 : ℚ) < 1/2 ∧ (1/2 : ℚ) ≤ 1 ∧
    ((buildSamples (1/2)).length = (⌊(1 : ℚ) / (1/2)⌋).toNat ∧
    (buildSamples (1/2)).map Sample.rate =
      (List.range' 1 (⌊(1 : ℚ) / (1/2)⌋).toNat).map (fun (i : ℕ) => (i : ℚ) * (1/2)) ∧
    ((buildSamples (1/2)).map Sample.rate).Chain' (· < ·) ∧
    (∀ s ∈ buildSamples (1/2), s.rate ≤ 1) ∧
    (buildSamples (1/2)).getLast?.map Sample.rate =
      some (((⌊(1 : ℚ) / (1/2)⌋).toNat : ℚ) * (1/2)) ∧
    ((((⌊(1 : ℚ) / (1/2)⌋).toNat : ℚ) * (1/2) = 1) ↔
      ((1 : ℚ) / (1/2) = ⌊(1 : ℚ) / (1/2)⌋)) ∧
    (∀ draws u t res,
      generateRarefaction draws u t (buildSamples (1/2)) = .ok res →
      res.map Sample.rate = (buildSamples (1/2)).map Sample.rate)) :=
  ⟨by norm_num, by norm_num, claim3_sample_set (1/2) (by norm_num) (by norm_num)⟩

/-- C4: single draw per read and determinism: the pass consumes exactly
one draw per primary line, no matter how many samples there are, so two
draw sequences that agree at the lines' indices give identical per-sample
results (read counters and all eight rank dictionaries). -/
theorem claim4_single_draw_determinism (draws1 draws2 : ℕ → ℚ)
    (u t : List String) (ss : List Sample)
    (h : ∀ k, k < u.length → draws1 k = draws2 k) :
    generateRarefaction draws1 u t ss = generateRarefaction draws2 u t ss :=
  aux_draws_congr draws1 draws2 u t 0 ss (fun k hk => by simpa using h k hk)

theorem claim4_witness :
    (∀ k, k < (["U"] : List String).length →
      (fun _ : ℕ => (0 : ℚ)) k = (fun i : ℕ => if i < 1 then (0 : ℚ) else 1) k) ∧
    generateRarefaction (fun _ : ℕ => (0 : ℚ)) ["U"] [] [Sample.init 1] =
      generateRarefaction (fun i : ℕ => if i < 1 then (0 : ℚ) else 1) ["U"] []
        [Sample.init 1] := by
  have h : ∀ k, k < (["U"] : List String).length →
      (fun _ : ℕ => (0 : ℚ)) k = (fun i : ℕ => if i < 1 then (0 : ℚ) else 1) k := by
    intro k hk
    simp only [List.length_cons, List.length_nil] at hk
    have hk0 : k = 0 := by omega
    subst hk0
    norm_num
  exact ⟨h, claim4_single_draw_determinism _ _ _ _ _ h⟩

/-- C5: desync is fatal: a secondary stream with fewer lines than the
number of classified primary lines makes generateRarefaction fail with
StreamDesyncError instead of continuing, and a classified line whose
secondary record lacks the rank-path token (fewer than two whitespace
tokens, including the exhausted-stream empty line) fails the same way at
that step. -/
theorem claim5_desync_fatal (draws : ℕ → ℚ) (u t : List String) (ss : List Sample)
    (line : String) (rest t2 : List String) (idx : ℕ) (ss2 : List Sample)
    (h1 : t.length < u.countP (fun l => isClassifiedLine l))
    (h2 : isClassifiedLine line = true)
    (h3 : (pySplit (t2.headD "")).length < 2) :
    generateRarefaction draws u t ss = .error KError.StreamDesyncError ∧
    generateRarefactionAux draws (line :: rest) t2 idx ss2 =
      .error KError.StreamDesyncError :=
  ⟨cleanPass_false_aux_error draws u t 0 ss (too_short_not_clean u t h1),
   aux_cons_malformed draws line rest t2 idx ss2 h2 h3⟩

theorem claim5_witness :
    ([] : List String).length <
      (["C"] : List String).countP (fun l => isClassifiedLine l) ∧
    isClassifiedLine "C" = true ∧
    (pySplit ((["x"] : List String).headD "")).length < 2 ∧
    (generateRarefaction (fun _ : ℕ => (0 : ℚ)) ["C"] [] [] =
      .error KError.StreamDesyncError ∧
    generateRarefactionAux (fun _ : ℕ => (0 : ℚ)) ["C"] ["x"] 0 [] =
      .error KError.StreamDesyncError) :=
  ⟨by decide, by decide, by decide,
   claim5_desync_fatal (fun _ => 0) ["C"] [] [] "C" [] ["x"] 0 []
     (by decide) (by decide) (by decide)⟩

/-- C6: distinct-count correctness: after a successful run, the size of a
sample's rank dictionary (the count writeResults reports via len) equals
the number of distinct tokens of that rank among the rank paths of the
reads included in that sample, counting repeated observations once. -/
theorem claim6_distinct_count (draws : ℕ → ℚ) (u t : List String)
    (ss res : List Sample) (j : ℕ) (s0 : Sample) (ℓ : RankLabel)
    (hok : generateRarefaction draws u t ss = .ok res)
    (hj : ss[j]? = some s0) (hempty : s0.dictOf ℓ = []) :
    res[j]?.map (fun s => (s.dictOf ℓ).length) =
      some ((((includedRankings draws s0.rate u t 0).flatten.filter
        (fun r => strStartsWith r (ℓ.label ++ KRAKEN_SEPARATOR))).toFinset).card) := by
  have hclean := aux_ok_cleanPass draws u t 0 ss res hok
  have hget := aux_ok_getElem draws u t 0 ss res hok j
  rw [hj] at hget
  rw [hget]
  simp only [Option.map_some']
  congr 1
  rw [processedSample_dictOf draws u t 0 s0 hclean ℓ, hempty]
  exact dict_length_distinct _ _

theorem claim6_witness :
    (generateRarefaction (fun _ : ℕ => (0 : ℚ)) ["C"] ["r d__A|d__A|d__B"]
        [Sample.init 1] =
      .ok [{ rate := 1, numberOfReads := 1,
             domainDictionary := [("d__A", 2), ("d__B", 1)],
             phylumDictionary := [], classDictionary := [], orderDictionary := [],
             familyDictionary := [], generaDictionary := [],
             speciesDictionary := [], subspeciesDictionary := [] }]) ∧
    (([Sample.init 1] : List Sample)[0]? = some (Sample.init 1)) ∧
    ((Sample.init 1).dictOf RankLabel.domain = []) ∧
    ([{ rate := 1, numberOfReads := 1,
        domainDictionary := [("d__A", 2), ("d__B", 1)],
        phylumDictionary := [], classDictionary := [], orderDictionary := [],
        familyDictionary := [], generaDictionary := [],
        speciesDictionary := [], subspeciesDictionary := [] }] :
          List Sample)[0]?.map (fun s => (s.dictOf RankLabel.domain).length) =
      some ((((includedRankings (fun _ : ℕ => (0 : ℚ)) (Sample.init 1).rate
        ["C"] ["r d__A|d__A|d__B"] 0).flatten.filter
        (fun r => strStartsWith r (RankLabel.domain.label ++ KRAKEN_SEPARATOR))).toFinset).card) :=
  ⟨by with_unfolding_all rfl, rfl, rfl,
   claim6_distinct_count (fun _ => 0) ["C"] ["r d__A|d__A|d__B"] [Sample.init 1]
     _ 0 (Sample.init 1) RankLabel.domain (by with_unfolding_all rfl) rfl rfl⟩

/-- C7: lockstep invariant: after any prefix of the primary stream the
secondary stream has been advanced exactly once per classified line of the
prefix and never for an unclassified line, the remainder of the pass
continuing from the dropped secondary stream and the shifted draw index
(and a desync error in the prefix propagates unchanged). -/
theorem claim7_lockstep (draws : ℕ → ℚ) (u1 u2 t : List String) (idx : ℕ)
    (ss : List Sample) :
    generateRarefactionAux draws (u1 ++ u2) t idx ss =
      (generateRarefactionAux draws u1 t idx ss).bind
        (fun ss2 => generateRarefactionAux draws u2
          (t.drop (u1.countP (fun l => isClassifiedLine l))) (idx + u1.length) ss2) :=
  aux_append draws u1 u2 t idx ss

/-- C8: a sample with rate 1.0 includes every read, since every draw lies
in [0,1): after a successful run its read count equals the number of
primary lines; and the configured rate 1.0 yields a sample set of size
exactly one. -/
theorem claim8_rate_one (draws : ℕ → ℚ) (u t : List String)
    (ss res : List Sample) (j : ℕ) (s0 : Sample)
    (hdraw : ∀ i, 0 ≤ draws i ∧ draws i < 1)
    (hok : generateRarefaction draws u t ss = .ok res)
    (hj : ss[j]? = some s0) (hrate : s0.rate = 1) (hinit : s0.numberOfReads = 0) :
    res[j]?.map Sample.numberOfReads = some u.length ∧
    (buildSamples 1).length = 1 := by
  constructor
  · have hclean := aux_ok_cleanPass draws u t 0 ss res hok
    have hget := aux_ok_getElem draws u t 0 ss res hok j
    rw [hj] at hget
    rw [hget]
    simp only [Option.map_some']
    congr 1
    rw [processedSample_count draws u t 0 s0 hclean
      (fun i => by rw [hrate]; exact (hdraw i).2.le), hinit, Nat.zero_add]
  · with_unfolding_all decide

theorem claim8_witness :
    (∀ i : ℕ, 0 ≤ (fun _ : ℕ => (0 : ℚ)) i ∧ (fun _ : ℕ => (0 : ℚ)) i < 1) ∧
    (generateRarefaction (fun _ : ℕ => (0 : ℚ)) ["U"] [] [Sample.init 1] =
      .ok [{ rate := 1, numberOfReads := 1,
             domainDictionary := [], phylumDictionary := [], classDictionary := [],
             orderDictionary := [], familyDictionary := [], generaDictionary := [],
             speciesDictionary := [], subspeciesDictionary := [] }]) ∧
    (([Sample.init 1] : List Sample)[0]? = some (Sample.init 1)) ∧
    ((Sample.init 1).rate = 1) ∧ ((Sample.init 1).numberOfReads = 0) ∧
    (([{ rate := 1, numberOfReads := 1,
         domainDictionary := [], phylumDictionary := [], classDictionary := [],
         orderDictionary := [], familyDictionary := [], generaDictionary := [],
         speciesDictionary := [], subspeciesDictionary := [] }] :
           List Sample)[0]?.map Sample.numberOfReads =
        some (["U"] : List String).length ∧
      (buildSamples 1).length = 1) :=
  ⟨fun i => ⟨le_refl 0, by norm_num⟩, by with_unfolding_all rfl, rfl, rfl, rfl,
   claim8_rate_one (fun _ => 0) ["U"] [] [Sample.init 1] _ 0 (Sample.init 1)
     (fun i => ⟨le_refl 0, by norm_num⟩) (by with_unfolding_all rfl) rfl rfl rfl⟩

/-- C9: unclassified reads still counted: a primary line whose first
character is not "C" increments the read counter of exactly the samples
whose rate is at least the shared draw, leaves all eight rank dictionaries
of every sample unchanged, and does not consume the secondary stream. -/
theorem claim9_unclassified_counted (draws : ℕ → ℚ) (line : String)
    (rest t : List String) (idx : ℕ) (ss : List Sample)
    (h : isClassifiedLine line = false) :
    generateRarefactionAux draws (line :: rest) t idx ss =
      generateRarefactionAux draws rest t (idx + 1)
        (ss.map (fun s => if draws idx ≤ s.rate then
          { s with numberOfReads := s.numberOfReads + 1 } else s)) := by
  rw [aux_cons_unclassified draws line rest t idx ss h]
  rfl

theorem claim9_witness :
    isClassifiedLine "U" = false ∧
    generateRarefactionAux (fun _ : ℕ => (0 : ℚ)) ["U"] [] 0 [Sample.init 1] =
      generateRarefactionAux (fun _ : ℕ => (0 : ℚ)) [] [] 1
        (([Sample.init 1] : List Sample).map (fun s =>
          if (fun _ : ℕ => (0 : ℚ)) 0 ≤ s.rate then
            { s with numberOfReads := s.numberOfReads + 1 } else s)) :=
  ⟨by decide,
   claim9_unclassified_counted (fun _ => 0) "U" [] [] 0 [Sample.init 1] (by decide)⟩

/-- C10: for every valid rate the sample list run builds is non-empty
(floor(1/rate) is at least 1), so after a successful pass writeResults'
samples[len(samples)-1] accesses are in bounds and all ten output rows are
produced without an indexing error. -/
theorem claim10_writeResults_safe (rate : ℚ) (draws : ℕ → ℚ)
    (u t : List String) (res : List Sample)
    (h0 : 0 < rate) (h1 : rate ≤ 1)
    (hok : generateRarefaction draws u t (buildSamples rate) = .ok res) :
    res ≠ [] ∧ (writeResults res).map List.length = some 10 := by
  have hlen : res.length = (buildSamples rate).length :=
    aux_ok_length draws u t 0 _ res hok
  have hpos : 0 < res.length := by
    rw [hlen, buildSamples_length]
    exact samplingPoints_pos rate h0 h1
  have hne : res ≠ [] := by
    intro hnil
    rw [hnil] at hpos
    simp at hpos
  refine ⟨hne, ?_⟩
  have hsome : res.getLast?.isSome := by
    rw [List.getLast?_isSome]
    exact hne
  obtain ⟨lastS, hlast⟩ := Option.isSome_iff_exists.mp hsome
  simp only [writeResults, hlast]
  rfl

theorem claim10_witness :
    (0 : ℚ) < 1 ∧ (1 : ℚ) ≤ 1 ∧
    generateRarefaction (fun _ : ℕ => (0 : ℚ)) [] [] (buildSamples 1) =
      .ok (buildSamples 1) ∧
    (buildSamples 1 ≠ [] ∧ (writeResults (buildSamples 1)).map List.length = some 10) :=
  ⟨by norm_num, le_refl 1, rfl,
   claim10_writeResults_safe 1 (fun _ => 0) [] [] (buildSamples 1)
     (by norm_num) (le_refl 1) rfl⟩

end Krakefaction
